import Mathlib

/-!
Shallow embedding of the COMP304 project sources `chatroom.c` and `my_cut.c`,
together with theorems settling the specification claims about them.
Byte strings are modelled as `List Char`, one `Char` per byte (the programs
treat their data as flat byte arrays, so this is faithful for the ASCII data
the proofs evaluate).
-/

namespace Chatroom

/-- Return code `SUCCESS` from chatroom.c line 29. -/
def SUCCESS : Int := 0

/-- Return code `FAILURE` from chatroom.c line 30. -/
def FAILURE : Int := 1

/-- Byte strings, one `Char` per byte. -/
abbrev Str := List Char

/-- `snprintf` into a buffer of `size` bytes keeps at most `size - 1` bytes of
the formatted output (one byte is reserved for the terminator). -/
def snprintfTrunc (size : Nat) (s : Str) : Str :=
  s.take (size - 1)

/-- chatroom.c lines 183-184: `snprintf(msg, sizeof(msg), "[%s] %s: %s\n", roomname, username, input)`
with `char msg[2048]`. -/
def format_msg (roomname username input : Str) : Str :=
  snprintfTrunc 2048
    (['['] ++ roomname ++ [']', ' '] ++ username ++ [':', ' '] ++ input ++ ['\n'])

/-- The wire line exactly as the specification words it: the body verbatim with
the fixed prefix and a trailing newline, with no truncation. Stated separately
from `format_msg` so the two can be compared. -/
def wireLine (roomname username body : Str) : Str :=
  ['['] ++ roomname ++ [']', ' '] ++ username ++ [':', ' '] ++ body ++ ['\n']

/-- chatroom.c lines 174-176: drop a trailing newline if the line ends in one. -/
def stripNewline (l : Str) : Str :=
  if l.getLast? = some '\n' then l.dropLast else l

/-- The directory entry named `.` skipped at chatroom.c line 207. -/
def dirSelf : Str := ['.']

/-- The directory entry named `..` skipped at chatroom.c line 207. -/
def dirParent : Str := ['.', '.']

/-- chatroom.c lines 205-212: the names enumerated from the room directory that
receive a delivery attempt; `.`, `..` and the sender are skipped. -/
def recipients (entries : List Str) (username : Str) : List Str :=
  entries.filter (fun e => e ≠ dirSelf ∧ e ≠ dirParent ∧ e ≠ username)

/-- Observable outcome of one delivery worker (chatroom.c lines 228-243):
the bytes written into the target mailbox, if any, and the exit code of the
worker process. -/
structure DeliveryResult where
  delivered : Option Str
  exitCode : Int
deriving DecidableEq, Repr

/-- chatroom.c lines 235-243: the worker opens the target pipe with
`O_WRONLY | O_NONBLOCK`; if no reader is attached the open fails at once and
the worker exits with `FAILURE` having written nothing; otherwise it writes the
whole formatted message and exits 0. -/
def deliver (hasReader : Bool) (msg : Str) : DeliveryResult :=
  if hasReader then { delivered := some msg, exitCode := SUCCESS }
  else { delivered := none, exitCode := FAILURE }

/-- chatroom.c lines 205-248: per-message fan-out, one delivery worker per
recipient. `readerOf r` tells whether the mailbox named `r` currently has an
attached reader. -/
def broadcast (entries : List Str) (username : Str) (readerOf : Str → Bool)
    (msg : Str) : List (Str × DeliveryResult) :=
  (recipients entries username).map (fun r => (r, deliver (readerOf r) msg))

/-- Observable summary of one iteration of the writer loop
(chatroom.c lines 163-259). -/
structure IterOutcome where
  listedRegistry : Bool
  formatted : Option Str
  spawned : Nat
  deliveries : List (Str × DeliveryResult)
deriving DecidableEq

/-- One iteration of the writer loop on a line read from stdin
(chatroom.c lines 163-259): strip the newline, skip empty input, otherwise
format the message and broadcast it. -/
def writerIteration (roomname username : Str) (entries : List Str)
    (readerOf : Str → Bool) (rawLine : Str) : IterOutcome :=
  if (stripNewline rawLine).length = 0 then
    { listedRegistry := false, formatted := none, spawned := 0, deliveries := [] }
  else
    { listedRegistry := true
      formatted := some (format_msg roomname username (stripNewline rawLine))
      spawned := (broadcast entries username readerOf
        (format_msg roomname username (stripNewline rawLine))).length
      deliveries := broadcast entries username readerOf
        (format_msg roomname username (stripNewline rawLine)) }

/-- Events of the writer loop, used to state its temporal behaviour:
reading a line from stdin, forking a delivery worker, and reaping one
with `waitpid`. -/
inductive Event where
  | readLine
  | spawn (pid : Nat)
  | wait (pid : Nat)
deriving DecidableEq, Repr

/-- Fork events for a list of worker pids, in order. -/
def spawnsOf (pids : List Nat) : List Event := pids.map Event.spawn

/-- `waitpid` events for a list of worker pids, in order
(chatroom.c lines 256-258). -/
def waitsOf (pids : List Nat) : List Event := pids.map Event.wait

/-- Fresh pids `base, base+1, ..., base+n-1` for the workers of one iteration. -/
def pidList (base n : Nat) : List Nat := (List.range n).map (fun i => base + i)

/-- Event trace of the writer loop (chatroom.c lines 163-259) over a list of
input lines, each paired with the snapshot of directory entries at the instant
of listing. Every iteration reads a line; a non-empty line forks one worker per
recipient and then reaps every one of them before the next read. -/
def writerTrace (username : Str) : List (Str × List Str) → Nat → List Event
  | [], _ => []
  | (raw, entries) :: rest, base =>
    if (stripNewline raw).length = 0 then
      Event.readLine :: writerTrace username rest base
    else
      Event.readLine ::
        (spawnsOf (pidList base (recipients entries username).length) ++
          waitsOf (pidList base (recipients entries username).length) ++
          writerTrace username rest (base + (recipients entries username).length))

/-- The workers forked but not yet reaped after a trace, starting from the
accumulator `acc`. -/
def pending : List Event → List Nat → List Nat
  | [], acc => acc
  | Event.readLine :: rest, acc => pending rest acc
  | Event.spawn p :: rest, acc => pending rest (acc ++ [p])
  | Event.wait p :: rest, acc => pending rest (acc.erase p)

/-- Environment script for one pass of the reader loop: either the blocking
`open(user_pipe, O_RDONLY)` fails, or it succeeds and a sequence of `read`
return values follows. -/
inductive Session where
  | openFail
  | openOk (reads : List Int)
deriving DecidableEq

/-- Control states of the reader loop (chatroom.c lines 125-151): blocked in
`open`, draining reads, or exited. -/
inductive RPhase where
  | waiting
  | draining
  | terminated
deriving DecidableEq, Repr

/-- chatroom.c lines 128-132: from `waiting`, a successful open enters the read
loop; a failed open exits the worker. -/
def openTransition : Bool → RPhase
  | true => RPhase.draining
  | false => RPhase.terminated

/-- chatroom.c lines 138-150: from `draining`, a read returning more than zero
bytes keeps draining; end-of-stream or error leaves the loop, closes the
descriptor and re-opens (back to `waiting`). -/
def readTransition (n : Int) : RPhase :=
  if 0 < n then RPhase.draining else RPhase.waiting

/-- Whether the reader worker has exited, and with which code. -/
inductive ReaderOutcome where
  | running
  | exited (code : Int)
deriving DecidableEq, Repr

/-- The reader loop (chatroom.c lines 125-151) run against a script of open
attempts: it exits with code 0 at the first failing open and otherwise keeps
looping. -/
def readerRun : List Session → ReaderOutcome
  | [] => ReaderOutcome.running
  | Session.openFail :: _ => ReaderOutcome.exited 0
  | Session.openOk _ :: rest => readerRun rest

/-- State of one participant session visible to `cleanup`: the recorded reader
pid, whether the reader worker is running, and the entries of the room
directory. -/
structure SessionState where
  readerPid : Int
  readerRunning : Bool
  roomDir : List Str
deriving DecidableEq

/-- `unlink(path)` on the room directory: removes the entry if present; the
return value is ignored by the caller, so a missing entry is not an error. -/
def unlinkEntry (dir : List Str) (path : Str) : List Str :=
  dir.filter (fun e => e ≠ path)

/-- chatroom.c lines 49-59: `cleanup` kills the reader child if its pid is
positive, unlinks the user pipe, and exits with status 0. -/
def cleanup (userPipe : Str) (s : SessionState) : SessionState × Int :=
  let s1 := if 0 < s.readerPid then { s with readerRunning := false } else s
  ({ s1 with roomDir := unlinkEntry s1.roomDir userPipe }, 0)

/-- Outcome of a node-creation call (`mkdir` or `mkfifo`): the errno-style
condition, if the call failed. -/
inductive SysErr where
  | eexist
  | other (errno : Nat)
deriving DecidableEq

/-- A creation call (`mkdir` at chatroom.c line 87, `mkfifo` at line 97) on a
filesystem modelled as the list of existing paths. `envFail` injects an
exogenous failure (permission denied, storage full, ...); otherwise creation
fails with `EEXIST` exactly when the path already exists. -/
def createNode (fs : List Str) (path : Str) (envFail : Option Nat) :
    List Str × Option SysErr :=
  match envFail with
  | some e => (fs, some (SysErr.other e))
  | none => if path ∈ fs then (fs, some SysErr.eexist) else (fs ++ [path], none)

/-- chatroom.c lines 87 and 97: the error is fatal exactly when the call failed
with an errno other than `EEXIST`. -/
def fatalErr : Option SysErr → Bool
  | none => false
  | some SysErr.eexist => false
  | some (SysErr.other _) => true

/-- Result of the join setup: the filesystem afterwards, and `some code` when
the process stops with exit code `code` instead of proceeding. -/
structure JoinResult where
  fs : List Str
  exitCode : Option Int
deriving DecidableEq

/-- chatroom.c lines 85-100: create the room directory, then the user FIFO;
each step returns `FAILURE` on any error other than already-exists. -/
def joinSetup (fs : List Str) (roomPath userPipe : Str)
    (envDir envFifo : Option Nat) : JoinResult :=
  if fatalErr (createNode fs roomPath envDir).2 then
    { fs := (createNode fs roomPath envDir).1, exitCode := some FAILURE }
  else
    if fatalErr (createNode (createNode fs roomPath envDir).1 userPipe envFifo).2 then
      { fs := (createNode (createNode fs roomPath envDir).1 userPipe envFifo).1
        exitCode := some FAILURE }
    else
      { fs := (createNode (createNode fs roomPath envDir).1 userPipe envFifo).1
        exitCode := none }

end Chatroom

namespace MyCut

/-- my_cut.c lines 65-80: split the line at the delimiter. Each delimiter ends
a token; after the hundredth token the scan stops and the remainder of the line
is dropped; otherwise the remainder after the last delimiter is the final token. -/
def tokenizeAux (delim : Char) : List Char → List Char → Nat → List (List Char)
  | [], acc, n => if n < 100 then [acc.reverse] else []
  | c :: cs, acc, n =>
    if c = delim then
      if 100 ≤ n + 1 then [acc.reverse]
      else acc.reverse :: tokenizeAux delim cs [] (n + 1)
    else tokenizeAux delim cs (c :: acc) n

/-- The token list of one input line (my_cut.c lines 62-80). -/
def tokenize (delim : Char) (line : List Char) : List (List Char) :=
  tokenizeAux delim line [] 0

/-- my_cut.c lines 84-90: output of iteration `i` of the printing loop for the
requested field `f`. An in-range field prints the delimiter when `i` is
positive and then the token; an out-of-range field prints nothing. -/
def fieldOutput (delim : Char) (tokens : List (List Char)) (f : Int) (i : Nat) :
    List Char :=
  if 1 ≤ f ∧ f ≤ (tokens.length : Int) then
    (if 0 < i then [delim] else []) ++ tokens.getD (f - 1).toNat []
  else []

/-- my_cut.c lines 83-91: the printing loop over the requested fields, carrying
the loop index. -/
def printFieldsAux (delim : Char) (tokens : List (List Char)) :
    List Int → Nat → List Char
  | [], _ => []
  | f :: fs, i => fieldOutput delim tokens f i ++ printFieldsAux delim tokens fs (i + 1)

/-- my_cut.c lines 58-93: full output for one input line, ending in the newline
of line 92. -/
def handleLine (delim : Char) (fields : List Int) (line : List Char) : List Char :=
  printFieldsAux delim (tokenize delim line) fields 0 ++ ['\n']

/-- The selected tokens rejoined with the delimiter, exactly as the
specification words it; stated separately from `handleLine` so the two can be
compared. -/
def specRejoin (delim : Char) : List (List Char) → List Char
  | [] => []
  | [t] => t
  | t :: ts => t ++ delim :: specRejoin delim ts

end MyCut

namespace Chatroom

/-- Claim C6: a participant never receives its own sent message — the fan-out
spawns a delivery worker for every directory entry except `.`, `..` and the
sender, and never one targeting the sender itself. -/
theorem chatroom_no_self_delivery (entries : List Str) (username : Str)
    (readerOf : Str → Bool) (msg : Str) :
    (∀ d ∈ broadcast entries username readerOf msg, d.1 ≠ username) ∧
    (∀ e ∈ entries, e ≠ dirSelf → e ≠ dirParent → e ≠ username →
      (e, deliver (readerOf e) msg) ∈ broadcast entries username readerOf msg) := by
  constructor
  · intro d hd
    simp only [broadcast, List.mem_map] at hd
    obtain ⟨r, hr, rfl⟩ := hd
    simp only [recipients, List.mem_filter, decide_eq_true_eq] at hr
    exact hr.2.2.2
  · intro e he h1 h2 h3
    simp only [broadcast, List.mem_map]
    refine ⟨e, ?_, rfl⟩
    simp only [recipients, List.mem_filter, decide_eq_true_eq]
    exact ⟨he, h1, h2, h3⟩

theorem chatroom_no_self_delivery_witness :
    (['b'], deliver true ['m']) ∈
      broadcast [['.'], ['.', '.'], ['a'], ['b']] ['a'] (fun _ => true) ['m'] :=
  (chatroom_no_self_delivery [['.'], ['.', '.'], ['a'], ['b']] ['a']
      (fun _ => true) ['m']).2 ['b'] (by decide) (by decide) (by decide) (by decide)

/-- Claim C9: an input line that is empty after stripping the trailing newline
is broadcast to nobody — no wire line is formatted, the registry is not
enumerated, no delivery worker is spawned, and the iteration yields nothing. -/
theorem chatroom_empty_line_skipped (roomname username : Str)
    (entries : List Str) (readerOf : Str → Bool) (rawLine : Str)
    (h : stripNewline rawLine = []) :
    writerIteration roomname username entries readerOf rawLine =
      { listedRegistry := false, formatted := none, spawned := 0,
        deliveries := [] } := by
  simp [writerIteration, h]

theorem chatroom_empty_line_skipped_witness :
    writerIteration ['g'] ['a'] [['a'], ['b']] (fun _ => true) ['\n'] =
      { listedRegistry := false, formatted := none, spawned := 0,
        deliveries := [] } :=
  chatroom_empty_line_skipped ['g'] ['a'] [['a'], ['b']] (fun _ => true) ['\n']
    (by decide)

/-- Claim C4: cleanup terminates the reader worker and removes the owned
mailbox entry, is idempotent, and yields exit status 0. -/
theorem chatroom_cleanup_effects (userPipe : Str) (s : SessionState)
    (h : 0 < s.readerPid) :
    (cleanup userPipe s).2 = 0 ∧
    ((cleanup userPipe s).1).readerRunning = false ∧
    userPipe ∉ ((cleanup userPipe s).1).roomDir ∧
    cleanup userPipe ((cleanup userPipe s).1) = cleanup userPipe s := by
  refine ⟨rfl, ?_, ?_, ?_⟩
  · simp [cleanup, h]
  · simp [cleanup, unlinkEntry, h, List.mem_filter]
  · simp [cleanup, unlinkEntry, h, List.filter_filter]

theorem chatroom_cleanup_effects_witness :
    (cleanup ['u'] ⟨1, true, [['u'], ['b']]⟩).2 = 0 ∧
    ((cleanup ['u'] ⟨1, true, [['u'], ['b']]⟩).1).readerRunning = false ∧
    ['u'] ∉ ((cleanup ['u'] ⟨1, true, [['u'], ['b']]⟩).1).roomDir ∧
    cleanup ['u'] ((cleanup ['u'] ⟨1, true, [['u'], ['b']]⟩).1) =
      cleanup ['u'] ⟨1, true, [['u'], ['b']]⟩ :=
  chatroom_cleanup_effects ['u'] ⟨1, true, [['u'], ['b']]⟩ (by decide)

/-- Claim C5: joining is idempotent — already-existing room or mailbox is not
an error, a second join changes nothing and leaves exactly one mailbox entry —
while a creation failure for any reason other than already-exists makes the
process stop with the non-zero code `FAILURE`. -/
theorem chatroom_join_setup (fs : List Str) (roomPath userPipe : Str)
    (hne : userPipe ≠ roomPath) (hfresh : userPipe ∉ fs) :
    ((joinSetup fs roomPath userPipe none none).exitCode = none) ∧
    (joinSetup (joinSetup fs roomPath userPipe none none).fs roomPath userPipe
        none none = joinSetup fs roomPath userPipe none none) ∧
    ((joinSetup fs roomPath userPipe none none).fs.count userPipe = 1) ∧
    (∀ e, (joinSetup fs roomPath userPipe (some e) none).exitCode =
      some FAILURE) ∧
    (∀ e, (joinSetup fs roomPath userPipe none (some e)).exitCode =
      some FAILURE) ∧
    FAILURE ≠ 0 := by
  have hcount : fs.count userPipe = 0 := List.count_eq_zero.mpr hfresh
  by_cases h1 : roomPath ∈ fs
  · simp [joinSetup, createNode, fatalErr, FAILURE, h1, hfresh, hne, hcount,
      List.count_append, List.count_cons]
  · simp [joinSetup, createNode, fatalErr, FAILURE, h1, hfresh, hne, hcount,
      List.count_append, List.count_cons]

theorem chatroom_join_setup_witness :
    ((joinSetup [] ['r'] ['u'] none none).exitCode = none) ∧
    (joinSetup (joinSetup [] ['r'] ['u'] none none).fs ['r'] ['u']
        none none = joinSetup [] ['r'] ['u'] none none) ∧
    ((joinSetup [] ['r'] ['u'] none none).fs.count ['u'] = 1) ∧
    (∀ e, (joinSetup [] ['r'] ['u'] (some e) none).exitCode = some FAILURE) ∧
    (∀ e, (joinSetup [] ['r'] ['u'] none (some e)).exitCode = some FAILURE) ∧
    FAILURE ≠ 0 :=
  chatroom_join_setup [] ['r'] ['u'] (by decide) (by decide)

end Chatroom

namespace MyCut

/-- Claim C10: a requested field index below 1 or beyond the token count of the
line prints nothing and raises no error in its loop iteration, and the output
line still ends with a newline. -/
theorem my_cut_invalid_field_skipped (delim : Char) (fields : List Int)
    (line : List Char) (f : Int) (i : Nat)
    (h : ¬(1 ≤ f ∧ f ≤ ((tokenize delim line).length : Int))) :
    fieldOutput delim (tokenize delim line) f i = [] ∧
    (handleLine delim fields line).getLast? = some '\n' := by
  refine ⟨by simp [fieldOutput, h], ?_⟩
  unfold handleLine
  exact List.getLast?_concat _

theorem my_cut_invalid_field_skipped_witness :
    fieldOutput ':' (tokenize ':' ['a']) 0 0 = [] ∧
    (handleLine ':' [0] ['a']).getLast? = some '\n' :=
  my_cut_invalid_field_skipped ':' [0] ['a'] 0 0 (by decide)

end MyCut

namespace Chatroom

/-- Claim C1 as stated is refuted by the 2048-byte message buffer: with a
2042-byte room name, a one-byte user name and the one-byte body `x`, the
formatted line is 2050 bytes, so `snprintf` truncates it and the unit handed
to the mailbox write is not the full wire line. -/
theorem chatroom_delivered_unit_truncated :
    (deliver true (format_msg (List.replicate 2042 'a') ['u'] ['x'])).delivered ≠
      some (wireLine (List.replicate 2042 'a') ['u'] ['x']) := by
  intro h
  have hd : (deliver true (format_msg (List.replicate 2042 'a') ['u'] ['x'])).delivered =
      some (format_msg (List.replicate 2042 'a') ['u'] ['x']) := rfl
  rw [hd] at h
  have h2 := Option.some.inj h
  have h3 := congrArg List.length h2
  simp only [format_msg, wireLine, snprintfTrunc, List.length_take,
    List.length_append, List.length_replicate, List.length_cons,
    List.length_singleton, List.length_nil] at h3
  omega

/-- Claim C1 (amended): whenever the full line `[R] A: B\n` fits the 2048-byte
message buffer, the unit delivered to every actively-reading recipient of the
broadcast is exactly that single text line — the body verbatim with the fixed
prefix and a trailing newline, no length prefix, no checksum. -/
theorem chatroom_delivered_unit_exact (roomname username rawLine : Str)
    (entries : List Str) (readerOf : Str → Bool)
    (hne : stripNewline rawLine ≠ [])
    (hlen : roomname.length + username.length +
      (stripNewline rawLine).length + 6 ≤ 2047) :
    ∀ d ∈ (writerIteration roomname username entries readerOf rawLine).deliveries,
      readerOf d.1 = true →
      d.2.delivered = some (wireLine roomname username (stripNewline rawLine)) := by
  intro d hd hr
  have hlen0 : ¬(stripNewline rawLine).length = 0 := by
    simpa [List.length_eq_zero] using hne
  simp only [writerIteration, if_neg hlen0] at hd
  simp only [broadcast, List.mem_map] at hd
  obtain ⟨r, hrmem, rfl⟩ := hd
  have hmsg : format_msg roomname username (stripNewline rawLine) =
      wireLine roomname username (stripNewline rawLine) := by
    unfold format_msg wireLine snprintfTrunc
    apply List.take_of_length_le
    simp only [List.length_append, List.length_cons, List.length_singleton,
      List.length_nil]
    omega
  simp only at hr
  simp [deliver, hr, hmsg]

theorem chatroom_delivered_unit_exact_witness :
    (['b'], deliver true (format_msg ['g'] ['a'] ['h', 'i'])).2.delivered =
      some (wireLine ['g'] ['a'] ['h', 'i']) :=
  chatroom_delivered_unit_exact ['g'] ['a'] ['h', 'i', '\n'] [['a'], ['b']]
    (fun _ => true) (by decide) (by decide)
    (['b'], deliver true (format_msg ['g'] ['a'] ['h', 'i'])) (by decide) (by decide)

/-- Within one broadcast, the delivery maps over a fixed recipient list; the
reader status of one recipient does not change what the workers for the other
recipients deliver. -/
theorem broadcast_filter_congr (l : List Str) (msg : Str) (f g : Str → Bool)
    (r0 : Str) (hagree : ∀ x, x ≠ r0 → f x = g x) :
    ((l.map (fun r => (r, deliver (f r) msg))).filter (fun d => d.1 ≠ r0)) =
    ((l.map (fun r => (r, deliver (g r) msg))).filter (fun d => d.1 ≠ r0)) := by
  induction l with
  | nil => rfl
  | cons a l ih =>
    by_cases ha : a = r0
    · simpa [ha] using ih
    · simpa [List.filter_cons, ha, hagree a ha] using ih

/-- Claim C2: a delivery attempt to a mailbox with no attached reader fails the
non-blocking open, is discarded silently (the worker writes nothing and exits
`FAILURE`, a status the sender never inspects), there is exactly one attempt
per recipient (no retry), and the failure does not affect what is delivered to
the other recipients of the same broadcast. -/
theorem chatroom_best_effort_delivery (entries : List Str) (username msg : Str)
    (readerOf readerOf2 : Str → Bool) (r0 : Str)
    (hagree : ∀ x, x ≠ r0 → readerOf x = readerOf2 x) :
    (∀ d ∈ broadcast entries username readerOf msg,
      readerOf d.1 = false → d.2 = { delivered := none, exitCode := FAILURE }) ∧
    ((broadcast entries username readerOf msg).map Prod.fst =
      recipients entries username) ∧
    ((broadcast entries username readerOf msg).filter (fun d => d.1 ≠ r0) =
      (broadcast entries username readerOf2 msg).filter (fun d => d.1 ≠ r0)) := by
  refine ⟨?_, ?_, ?_⟩
  · intro d hd hfalse
    simp only [broadcast, List.mem_map] at hd
    obtain ⟨r, hrmem, rfl⟩ := hd
    simp only at hfalse
    simp [deliver, hfalse]
  · rw [broadcast, List.map_map]
    have hcomp : (Prod.fst ∘ fun r => (r, deliver (readerOf r) msg)) =
        fun r : Str => r := rfl
    rw [hcomp]
    exact List.map_id' _
  · exact broadcast_filter_congr (recipients entries username) msg readerOf
      readerOf2 r0 hagree

theorem chatroom_best_effort_delivery_witness :
    (['c'], deliver false ['m']).2 =
      { delivered := none, exitCode := FAILURE } ∧
    ((broadcast [['.'], ['a'], ['b'], ['c']] ['a']
        (fun x => decide (x = ['b'])) ['m']).map Prod.fst =
      recipients [['.'], ['a'], ['b'], ['c']] ['a']) := by
  have h := chatroom_best_effort_delivery [['.'], ['a'], ['b'], ['c']] ['a']
    ['m'] (fun x => decide (x = ['b'])) (fun x => decide (x = ['b'])) ['c']
    (fun _ _ => rfl)
  exact ⟨h.1 (['c'], deliver false ['m']) (by decide) (by decide), h.2.1⟩

/-- Claim C7: the reader loop moves from waiting to draining on a successful
open, returns to waiting when a read stops yielding bytes, exits the worker
exactly when an open fails, and never exits while opens keep succeeding. -/
theorem chatroom_reader_state_machine :
    (openTransition true = RPhase.draining) ∧
    (openTransition false = RPhase.terminated) ∧
    (∀ n : Int, n ≤ 0 → readTransition n = RPhase.waiting) ∧
    (∀ n : Int, 0 < n → readTransition n = RPhase.draining) ∧
    (∀ script : List Session,
      readerRun script = ReaderOutcome.exited 0 ↔ Session.openFail ∈ script) := by
  refine ⟨rfl, rfl, ?_, ?_, ?_⟩
  · intro n hn
    simp [readTransition, not_lt.mpr hn]
  · intro n hn
    simp [readTransition, hn]
  · intro script
    induction script with
    | nil => simp [readerRun]
    | cons s rest ih =>
      cases s with
      | openFail => simp [readerRun]
      | openOk reads => simp [readerRun, ih]

theorem chatroom_reader_state_machine_witness :
    readTransition 0 = RPhase.waiting ∧
    readerRun [Session.openOk [5, 0], Session.openFail] =
      ReaderOutcome.exited 0 := by
  have h := chatroom_reader_state_machine
  exact ⟨h.2.2.1 0 (by decide),
    (h.2.2.2.2 [Session.openOk [5, 0], Session.openFail]).mpr (by decide)⟩

end Chatroom

namespace MyCut

/-- From loop index 1 on, every in-range requested field prints the delimiter
followed by its token, so a non-empty run of in-range fields prints one
delimiter-prefixed rejoined block. -/
theorem printFieldsAux_pos (delim : Char) (tokens : List (List Char)) :
    ∀ (fs : List Int) (i : Nat),
      (∀ f ∈ fs, 1 ≤ f ∧ f ≤ (tokens.length : Int)) → fs ≠ [] → 0 < i →
      printFieldsAux delim tokens fs i =
        delim :: specRejoin delim
          (fs.map (fun f => tokens.getD (f - 1).toNat [])) := by
  intro fs
  induction fs with
  | nil => intro i _ hne _; exact absurd rfl hne
  | cons f fs ih =>
    intro i hvalid _ hi
    have h1 := hvalid f (by simp)
    cases fs with
    | nil =>
      simp [printFieldsAux, fieldOutput, h1, hi, specRejoin]
    | cons f2 fs2 =>
      have htail := ih (i + 1) (fun g hg => hvalid g (by simp [hg]))
        (by simp) (by omega)
      have hstep : printFieldsAux delim tokens (f :: f2 :: fs2) i =
          fieldOutput delim tokens f i ++
            printFieldsAux delim tokens (f2 :: fs2) (i + 1) := rfl
      rw [hstep, htail]
      simp [fieldOutput, h1, hi, specRejoin]

/-- Claim C8: when every requested field index is in range for the line, the
output line consists of the requested tokens, in exactly the order the fields
were given, rejoined with the delimiter character, plus the final newline. -/
theorem my_cut_fields_rejoined (delim : Char) (fields : List Int)
    (line : List Char)
    (h : ∀ f ∈ fields, 1 ≤ f ∧ f ≤ ((tokenize delim line).length : Int)) :
    handleLine delim fields line =
      specRejoin delim
        (fields.map (fun f => (tokenize delim line).getD (f - 1).toNat [])) ++
      ['\n'] := by
  cases fields with
  | nil => simp [handleLine, printFieldsAux, specRejoin]
  | cons f fs =>
    have h1 := h f (by simp)
    cases fs with
    | nil =>
      simp [handleLine, printFieldsAux, fieldOutput, h1, specRejoin]
    | cons f2 fs2 =>
      have htail := printFieldsAux_pos delim (tokenize delim line) (f2 :: fs2) 1
        (fun g hg => h g (by simp [hg])) (by simp) (by omega)
      have hstep : printFieldsAux delim (tokenize delim line) (f :: f2 :: fs2) 0 =
          fieldOutput delim (tokenize delim line) f 0 ++
            printFieldsAux delim (tokenize delim line) (f2 :: fs2) 1 := rfl
      unfold handleLine
      rw [hstep, htail]
      simp [fieldOutput, h1, specRejoin]

theorem my_cut_fields_rejoined_witness :
    handleLine ':' [2, 1] ['a', ':', 'b'] =
      specRejoin ':' (([2, 1] : List Int).map (fun f =>
        (tokenize ':' ['a', ':', 'b']).getD (f - 1).toNat [])) ++ ['\n'] :=
  my_cut_fields_rejoined ':' [2, 1] ['a', ':', 'b'] (by decide)

end MyCut

namespace Chatroom

/-- `pending` processes an event list piecewise. -/
theorem pending_append (a b : List Event) (acc : List Nat) :
    pending (a ++ b) acc = pending b (pending a acc) := by
  induction a generalizing acc with
  | nil => rfl
  | cons e rest ih => cases e <;> simp [pending, ih]

/-- Forking workers appends their pids to the pending set. -/
theorem pending_spawnsOf (l : List Nat) (acc : List Nat) :
    pending (spawnsOf l) acc = acc ++ l := by
  induction l generalizing acc with
  | nil => simp [spawnsOf, pending]
  | cons p l ih =>
    show pending (spawnsOf l) (acc ++ [p]) = acc ++ p :: l
    rw [ih]
    simp

/-- Reaping every pid of the pending set empties it. -/
theorem pending_waitsOf_self (l : List Nat) :
    pending (waitsOf l) l = [] := by
  induction l with
  | nil => rfl
  | cons p l ih => simpa [waitsOf, pending, List.erase_cons_head] using ih

/-- One full fork-then-reap block leaves no pending worker. -/
theorem pending_block (l : List Nat) :
    pending (spawnsOf l ++ waitsOf l) [] = [] := by
  rw [pending_append, pending_spawnsOf]
  simpa using pending_waitsOf_self l

/-- A fork-then-reap block contains no read event. -/
theorem readLine_not_mem_block (l : List Nat) :
    Event.readLine ∉ spawnsOf l ++ waitsOf l := by
  simp [spawnsOf, waitsOf]

/-- A read event inside `block ++ tail` with no read in `block` lies in
`tail`, and the split decomposes accordingly. -/
theorem readLine_split (block : List Event) :
    ∀ (t s tail : List Event), Event.readLine ∉ block →
      t ++ Event.readLine :: s = block ++ tail →
      ∃ t2, t = block ++ t2 ∧ tail = t2 ++ Event.readLine :: s := by
  induction block with
  | nil =>
    intro t s tail _ heq
    exact ⟨t, by simp, by simpa using heq.symm⟩
  | cons b bl ih =>
    intro t s tail hmem heq
    cases t with
    | nil =>
      exfalso
      simp only [List.nil_append] at heq
      have hb := (List.cons.inj heq).1
      exact hmem (by simp [hb.symm])
    | cons x t' =>
      simp only [List.cons_append] at heq
      obtain ⟨hx, heq2⟩ := List.cons.inj heq
      subst hx
      have hmem2 : Event.readLine ∉ bl := fun hc =>
        hmem (List.mem_cons_of_mem _ hc)
      obtain ⟨t2, ht, htail⟩ := ih t' s tail hmem2 heq2
      exact ⟨t2, by simp [ht], htail⟩

/-- Processing a prefix of the fork events of pid list `l` leaves exactly the
already-forked pids pending. -/
theorem pending_spawn_segment :
    ∀ (t a : List Event) (l acc : List Nat), spawnsOf l = t ++ a →
      pending t acc = acc ++ l.take t.length := by
  intro t
  induction t with
  | nil => intro a l acc _; simp [pending]
  | cons e t' ih =>
    intro a l acc heq
    cases l with
    | nil => simp [spawnsOf] at heq
    | cons p l' =>
      simp only [spawnsOf, List.map_cons, List.cons_append] at heq
      obtain ⟨he, heq2⟩ := List.cons.inj heq
      subst he
      simp only [pending]
      rw [ih a l' (acc ++ [p]) heq2]
      simp

/-- Processing a prefix of the reap events never grows the pending set. -/
theorem pending_wait_prefix_le :
    ∀ (t a : List Event) (l acc : List Nat), waitsOf l = t ++ a →
      (pending t acc).length ≤ acc.length := by
  intro t
  induction t with
  | nil => intro a l acc _; simp [pending]
  | cons e t' ih =>
    intro a l acc heq
    cases l with
    | nil => simp [waitsOf] at heq
    | cons p l' =>
      simp only [waitsOf, List.map_cons, List.cons_append] at heq
      obtain ⟨he, heq2⟩ := List.cons.inj heq
      subst he
      simp only [pending]
      exact le_trans (ih a l' (acc.erase p) heq2) (List.length_erase_le p acc)

/-- The pid list of one iteration has one pid per recipient. -/
theorem pidList_length (base n : Nat) : (pidList base n).length = n := by
  simp [pidList]

/-- At every read event of the writer trace, no delivery worker spawned by an
earlier iteration is still pending. -/
theorem writer_boundary (username : Str) :
    ∀ (inputs : List (Str × List Str)) (base : Nat) (t s : List Event),
      writerTrace username inputs base = t ++ Event.readLine :: s →
      pending t [] = [] := by
  intro inputs
  induction inputs with
  | nil =>
    intro base t s h
    simp only [writerTrace] at h
    exact absurd h.symm (by simp)
  | cons pr rest ih =>
    obtain ⟨raw, entries⟩ := pr
    intro base t s h
    simp only [writerTrace] at h
    by_cases hin : (stripNewline raw).length = 0
    · rw [if_pos hin] at h
      cases t with
      | nil => rfl
      | cons x t' =>
        rw [List.cons_append] at h
        obtain ⟨hx, h2⟩ := List.cons.inj h
        subst hx
        have := ih base t' s h2
        simpa [pending] using this
    · rw [if_neg hin] at h
      cases t with
      | nil => rfl
      | cons x t' =>
        rw [List.cons_append] at h
        obtain ⟨hx, h2⟩ := List.cons.inj h
        subst hx
        obtain ⟨t2, ht, htail⟩ := readLine_split _ t' s _
          (readLine_not_mem_block
            (pidList base (recipients entries username).length)) h2.symm
        subst ht
        simp only [pending]
        rw [pending_append, pending_block]
        exact ih (base + (recipients entries username).length) t2 s htail

/-- At every point of the writer trace, the pending delivery workers all come
from the iteration in progress: either none is pending, or some listed
snapshot bounds their number by its recipient count. -/
theorem writer_inflight_bound (username : Str) :
    ∀ (inputs : List (Str × List Str)) (base : Nat) (t s : List Event),
      writerTrace username inputs base = t ++ s →
      pending t [] = [] ∨
        ∃ p ∈ inputs,
          (pending t []).length ≤ (recipients p.2 username).length := by
  intro inputs
  induction inputs with
  | nil =>
    intro base t s h
    simp only [writerTrace] at h
    obtain ⟨ht, -⟩ := List.append_eq_nil.mp h.symm
    subst ht
    exact Or.inl rfl
  | cons pr rest ih =>
    obtain ⟨raw, entries⟩ := pr
    intro base t s h
    simp only [writerTrace] at h
    by_cases hin : (stripNewline raw).length = 0
    · rw [if_pos hin] at h
      cases t with
      | nil => exact Or.inl rfl
      | cons x t' =>
        rw [List.cons_append] at h
        obtain ⟨hx, h2⟩ := List.cons.inj h
        subst hx
        simp only [pending]
        rcases ih base t' s h2 with hl | ⟨p, hp, hle⟩
        · exact Or.inl hl
        · exact Or.inr ⟨p, List.mem_cons_of_mem _ hp, hle⟩
    · rw [if_neg hin] at h
      cases t with
      | nil => exact Or.inl rfl
      | cons x t' =>
        rw [List.cons_append] at h
        obtain ⟨hx, h2⟩ := List.cons.inj h
        subst hx
        simp only [pending]
        rcases List.append_eq_append_iff.mp h2.symm with
          ⟨a2, hblock, -⟩ | ⟨c2, ht2, htail⟩
        · rcases List.append_eq_append_iff.mp hblock with
            ⟨w2, hw, hwa⟩ | ⟨y2, hs, -⟩
          · subst hw
            refine Or.inr ⟨(raw, entries), List.mem_cons_self _ _, ?_⟩
            rw [pending_append, pending_spawnsOf, List.nil_append]
            calc (pending w2
                  (pidList base (recipients entries username).length)).length ≤
                (pidList base (recipients entries username).length).length :=
                  pending_wait_prefix_le w2 a2 _ _ hwa
              _ = (recipients entries username).length := pidList_length _ _
          · refine Or.inr ⟨(raw, entries), List.mem_cons_self _ _, ?_⟩
            rw [pending_spawn_segment t' y2 _ [] hs]
            simp only [List.nil_append]
            calc (List.take t'.length
                (pidList base (recipients entries username).length)).length ≤
                (pidList base (recipients entries username).length).length :=
                  List.length_take_le' _ _
              _ = (recipients entries username).length := pidList_length _ _
        · subst ht2
          rw [pending_append, pending_append, pending_spawnsOf,
            List.nil_append, pending_waitsOf_self]
          rcases ih (base + (recipients entries username).length) c2 s
              htail with hl | ⟨p, hp, hle⟩
          · exact Or.inl hl
          · exact Or.inr ⟨p, List.mem_cons_of_mem _ hp, hle⟩

/-- Claim C3: the writer waits for every delivery worker it spawned before
accepting the next line of input — at every read event of the trace no worker
is pending — and at any instant the pending workers are bounded by the
recipient count of some listed snapshot, itself at most that snapshot's
membership size. -/
theorem chatroom_writer_awaits_workers (username : Str)
    (inputs : List (Str × List Str)) (base : Nat) :
    (∀ t s, writerTrace username inputs base = t ++ Event.readLine :: s →
      pending t [] = []) ∧
    (∀ t s, writerTrace username inputs base = t ++ s →
      pending t [] = [] ∨
        ∃ p ∈ inputs,
          (pending t []).length ≤ (recipients p.2 username).length) ∧
    (∀ entries : List Str,
      (recipients entries username).length ≤ entries.length) :=
  ⟨fun t s h => writer_boundary username inputs base t s h,
   fun t s h => writer_inflight_bound username inputs base t s h,
   fun _ => List.length_filter_le _ _⟩

theorem chatroom_writer_awaits_workers_witness :
    pending [Event.readLine, Event.spawn 0, Event.wait 0] [] = [] :=
  (chatroom_writer_awaits_workers ['u']
      [(['h', 'i', '\n'], [['u'], ['b']]), (['\n'], [])] 0).1
    [Event.readLine, Event.spawn 0, Event.wait 0] [] (by decide)

end Chatroom
